import Mathlib

/-!
Verification of `simple_server.py`, a minimal HTTP file-serving utility.

The development shallowly embeds the server's pure logic:
* the path manipulation helpers it uses (`posixpath.join`, `posixpath.normpath`,
  `os.path.basename`, `urllib.parse.unquote`, `urllib.parse.quote`, `str.split('/')`),
  modelled on POSIX (`os.sep = '/'`) for ASCII strings — percent-escapes are decoded
  byte-by-byte, which coincides with Python for all bytes below 0x80;
* an abstract filesystem (`FSNode`) in which a directory either lists its entries or
  raises `OSError` on `os.listdir`/`os.scandir` (`readable = false`);
* the server's functions `get_directory_structure`, `create_zip_file`,
  `DownloadHandler.do_GET`, `DownloadHandler.send_folder_as_zip`,
  `DownloadHandler.list_directory` and the nested `render_structure`.

The `zipfile` library is external to the repository; an archive is modelled as the
list of `(arcname, file bytes)` pairs written into it, and the byte serialization of
that list is an arbitrary parameter `ser` — no claim depends on the ZIP byte format
itself, only on which entries are written and on the buffer position bookkeeping of
`io.BytesIO` (`seek`/`tell`), which is modelled exactly.
-/

namespace SimpleServer

/-- Constant `PID_FILE = "simple_server.pid"` from the source. -/
def PID_FILE : String := "simple_server.pid"

/-- The literal log filename `'server.log'` the source compares against. -/
def LOG_FILE : String := "server.log"

/-- Char-list test that `pat` is an initial segment of `l` (used to model
`str.startswith`). -/
def isLeadingOf : List Char → List Char → Bool
  | [], _ => true
  | _ :: _, [] => false
  | a :: as, b :: bs => a = b && isLeadingOf as bs

/-- Model of Python `s.startswith(t)`. -/
def strStarts (s t : String) : Bool := isLeadingOf t.data s.data

/-- Model of the Python slice `s[n:]` (by characters, as in Python `str`). -/
def strDrop (s : String) (n : Nat) : String := String.mk (s.data.drop n)

/-- Model of `folder_path.replace('/', os.sep).replace('\\', os.sep)` on POSIX:
the first replace is the identity, the second maps every backslash to `'/'`. -/
def mapSep (s : String) : String := String.mk (s.data.map fun c => if c = '\\' then '/' else c)

/-- Model of `dir_path.replace(os.sep, '_')` used to build HTML folder ids. -/
def underscoreSep (s : String) : String :=
  String.mk (s.data.map fun c => if c = '/' then '_' else c)

/-- Model of Python `s.split('/')` (empty parts preserved). -/
def splitSlash : List Char → List String
  | [] => [""]
  | c :: rest =>
      if c = '/' then "" :: splitSlash rest
      else
        match splitSlash rest with
        | [] => [String.mk [c]]
        | s :: ss => String.mk (c :: s.data) :: ss

/-- Model of POSIX `os.path.basename`: everything after the last `'/'`. -/
def basename (p : String) : String := (splitSlash p.data).getLastD ""

/-- Model of Python `s.endswith('/')`. -/
def endsSlash (s : String) : Bool :=
  match s.data.getLast? with
  | some c => c = '/'
  | none => false

/-- Model of POSIX `os.path.join` for two arguments: an absolute second argument
discards the first. -/
def pyJoin (a b : String) : String :=
  if strStarts b "/" then b
  else if a = "" || endsSlash a then a ++ b
  else a ++ "/" ++ b

/-- The component loop of CPython `posixpath.normpath`: skip `''` and `'.'`,
append a component unless it is a `'..'` that cancels against the accumulator. -/
def normAux (slashes : Nat) : List String → List String → List String
  | acc, [] => acc
  | acc, comp :: rest =>
      if comp = "" ∨ comp = "." then normAux slashes acc rest
      else if comp ≠ ".." ∨ (slashes = 0 ∧ acc = []) ∨ acc.getLast? = some ".." then
        normAux slashes (acc ++ [comp]) rest
      else normAux slashes acc.dropLast rest

/-- Model of CPython `posixpath.normpath`. -/
def normpath (p : String) : String :=
  if p = "" then "." else
  let slashes : Nat :=
    if strStarts p "//" && !strStarts p "///" then 2
    else if strStarts p "/" then 1 else 0
  let comps := normAux slashes [] (splitSlash p.data)
  let res := String.mk (List.replicate slashes '/') ++ String.intercalate "/" comps
  if res = "" then "." else res

/-- Value of a hexadecimal digit, as accepted by `urllib.parse.unquote`. -/
def hexVal (c : Char) : Option Nat :=
  if '0' ≤ c ∧ c ≤ '9' then some (c.toNat - '0'.toNat)
  else if 'a' ≤ c ∧ c ≤ 'f' then some (10 + c.toNat - 'a'.toNat)
  else if 'A' ≤ c ∧ c ≤ 'F' then some (10 + c.toNat - 'A'.toNat)
  else none

/-- Model of `urllib.parse.unquote` on char lists: `%XY` with two hex digits becomes
the byte `16*X + Y`; a `%` not followed by two hex digits is kept verbatim.
(Faithful to Python for ASCII results; multi-byte UTF-8 grouping is not modelled.) -/
def unquoteChars : List Char → List Char
  | [] => []
  | '%' :: a :: b :: rest =>
      match hexVal a, hexVal b with
      | some x, some y => Char.ofNat (16 * x + y) :: unquoteChars rest
      | _, _ => '%' :: unquoteChars (a :: b :: rest)
  | c :: rest => c :: unquoteChars rest

/-- Model of `urllib.parse.unquote` on strings. -/
def unquote (s : String) : String := String.mk (unquoteChars s.data)

/-- Hexadecimal digit (uppercase, as produced by `urllib.parse.quote`). -/
def hexDigit (n : Nat) : Char :=
  if n < 10 then Char.ofNat ('0'.toNat + n) else Char.ofNat ('A'.toNat + n - 10)

/-- Characters `urllib.parse.quote` leaves unescaped (always-safe set plus the
default `safe='/'`). -/
def isQuoteSafe (c : Char) : Bool :=
  c.isAlpha || c.isDigit || c = '_' || c = '.' || c = '-' || c = '~' || c = '/'

/-- Model of `urllib.parse.quote` for ASCII strings. -/
def quoteStr (s : String) : String :=
  String.join (s.data.map fun c =>
    if isQuoteSafe c then String.mk [c]
    else String.mk ['%', hexDigit (c.toNat / 16), hexDigit (c.toNat % 16)])

/-- Relative-path join used to model `os.path.relpath(os.path.join(d, item), base)`
when `d` sits at relative path `rel` below `base` (`rel = ""` at `base` itself). -/
def joinRel (rel name : String) : String := if rel = "" then name else rel ++ "/" ++ name

/-- The filter the source applies everywhere:
`item.startswith('.') or item == PID_FILE or item == 'server.log'`. -/
def excludedName (s : String) : Bool :=
  strStarts s "." || s = PID_FILE || s = LOG_FILE

/-- Abstract filesystem node. A directory carries `readable`: when `false`,
`os.listdir`/`os.scandir` on it raises `OSError` (the entries are still there,
modelling that the contents exist but cannot be enumerated). -/
inductive FSNode : Type where
  | file (content : List Nat) : FSNode
  | dir (readable : Bool) (entries : List (String × FSNode)) : FSNode
deriving Repr

mutual
/-- Entry names are plausible filesystem names: nonempty, without `'/'`.
`os.listdir` can only return such names. -/
def validNames : FSNode → Bool
  | .file _ => true
  | .dir _ entries => validEntries entries

/-- See `validNames`. -/
def validEntries : List (String × FSNode) → Bool
  | [] => true
  | (n, c) :: rest =>
      !(n = "") && !(n.data.contains '/') && validNames c && validEntries rest
end

/-- The recursive `{'files': [...], 'dirs': {...}}` structure built by
`get_directory_structure`; `dirs` is the dict as an insertion-ordered
association list. -/
inductive DirStructure : Type where
  | mk (files : List String) (dirs : List (String × DirStructure)) : DirStructure
deriving Repr

/-- The `'files'` component. -/
def DirStructure.files : DirStructure → List String
  | .mk f _ => f

/-- The `'dirs'` component. -/
def DirStructure.dirs : DirStructure → List (String × DirStructure)
  | .mk _ d => d

mutual
/-- Model of `get_directory_structure(directory)` where `rel` is the path of
`directory` relative to `DOWNLOAD_DIR`.  `os.listdir` on a file or on an
unreadable directory raises `OSError`, which the source catches, returning the
empty structure. -/
def get_directory_structure : FSNode → String → DirStructure
  | .file _, _ => .mk [] []
  | .dir false _, _ => .mk [] []
  | .dir true entries, rel => scanItems entries rel

/-- The `for item in items` loop of `get_directory_structure`: skip excluded
names, classify each entry with `os.path.isfile`/`os.path.isdir`, record its
path relative to `DOWNLOAD_DIR`, and recurse into subdirectories. -/
def scanItems : List (String × FSNode) → String → DirStructure
  | [], _ => .mk [] []
  | (name, child) :: rest, rel =>
      let s := scanItems rest rel
      if excludedName name then s
      else
        match child with
        | .file _ => .mk (joinRel rel name :: s.files) s.dirs
        | .dir b es =>
            .mk s.files
              ((joinRel rel name, get_directory_structure (.dir b es) (joinRel rel name)) :: s.dirs)
end

mutual
/-- The entries `create_zip_file(directory, _)` writes, as `(arcname, bytes)` pairs,
in the order `os.walk(directory)` visits them (top-down; a directory's files first,
then each subdirectory recursively).  `rel` is the walk position relative to
`directory` (so arcnames are `os.path.relpath(file_path, directory)`).  A directory
whose `scandir` raises is silently skipped (`os.walk`'s default `onerror=None`);
`os.walk` of a plain-file path yields nothing.  Only *file* names are filtered —
the source never prunes the `dirs` list. -/
def zipEntries : FSNode → String → List (String × List Nat)
  | .file _, _ => []
  | .dir false _, _ => []
  | .dir true entries, rel => zipFilesHere entries rel ++ zipWalkSubdirs entries rel

/-- The `for file in files` loop: skip excluded file names, write the rest. -/
def zipFilesHere : List (String × FSNode) → String → List (String × List Nat)
  | [], _ => []
  | (n, .file data) :: rest, rel =>
      (if excludedName n then [] else [(joinRel rel n, data)]) ++ zipFilesHere rest rel
  | (_, .dir _ _) :: rest, rel => zipFilesHere rest rel

/-- The recursion of `os.walk` into every subdirectory (hidden ones included). -/
def zipWalkSubdirs : List (String × FSNode) → String → List (String × List Nat)
  | [], _ => []
  | (n, .dir b es) :: rest, rel =>
      zipEntries (.dir b es) (joinRel rel n) ++ zipWalkSubdirs rest rel
  | (_, .file _) :: rest, rel => zipWalkSubdirs rest rel
end

/-- First entry of a directory-listing with the given name, if any. -/
def childNamed : List (String × FSNode) → String → Option FSNode
  | [], _ => none
  | (n, c) :: rest, k => if n = k then some c else childNamed rest k

/-- Resolve a component list against a filesystem node (models `os.stat` as used by
`os.path.exists`/`os.path.isfile`/`os.path.isdir`). -/
def fsLookup : List String → FSNode → Option FSNode
  | [], node => some node
  | _ :: _, .file _ => none
  | c :: rest, .dir _ entries =>
      match childNamed entries c with
      | some child => fsLookup rest child
      | none => none

/-- Components of an absolute path string, for `fsLookup` against the node at `/`. -/
def pathComponents (p : String) : List String :=
  (splitSlash p.data).filter (fun c => ¬c = "")

/-- An in-memory byte buffer (`io.BytesIO`): `data` are the bytes held,
`pos` the current stream position (`tell()` returns it; reads start from it). -/
structure BytesBuffer : Type where
  data : List Nat
  pos : Nat
deriving Repr

/-- A serializer standing for the byte output `zipfile.ZipFile` produces for a
given sequence of written entries (the ZIP byte format is external library code;
nothing below depends on it). -/
abbrev ZipEncoder : Type := List (String × List Nat) → List Nat

/-- Model of `create_zip_file(directory, base_path)`: write every non-excluded
file reachable by `os.walk(directory)` into the archive, then `seek(0)` —
so the returned buffer's position is `0`.  The `base_path` parameter is accepted
but unused, exactly as in the source. -/
def create_zip_file (ser : ZipEncoder) (directory : FSNode) (basePath : String) : BytesBuffer :=
  let _ := basePath
  { data := ser (zipEntries directory ""), pos := 0 }

/-- An HTTP response as the handler assembles it: `message` is the `send_error`
text (empty on success), `headers` the explicit headers sent, `body` the raw
bytes written to `wfile`. -/
structure HTTPResponse : Type where
  status : Nat
  message : String
  headers : List (String × String)
  body : List Nat
deriving Repr

/-- First header with the given name. -/
def headerValue : List (String × String) → String → Option String
  | [], _ => none
  | (k, v) :: rest, key => if k = key then some v else headerValue rest key

/-- The `folder_path` value after line 129 of the source: URL-decode (again) and
normalize separators. -/
def decodedFolder (folder_path : String) : String := mapSep (unquote folder_path)

/-- The `full_path` the handler selects: `os.path.normpath(os.path.join(DOWNLOAD_DIR,
folder_path))`. -/
def resolveFolder (root folder_path : String) : String :=
  normpath (pyJoin root (decodedFolder folder_path))

/-- Model of `DownloadHandler.send_folder_as_zip(folder_path)`.  `fs` is the node
at the filesystem root `/`, `root` the absolute `DOWNLOAD_DIR` string.  The
`try`/`except` wrapper returning 500 never fires in this model because no
modelled operation raises after the existence checks. -/
def send_folder_as_zip (ser : ZipEncoder) (fs : FSNode) (root folder_path : String) :
    HTTPResponse :=
  let fp := decodedFolder folder_path
  let full_path := resolveFolder root folder_path
  match fsLookup (pathComponents full_path) fs with
  | none => { status := 404, message := "Folder not found", headers := [], body := [] }
  | some (.file _) => { status := 400, message := "Not a directory", headers := [], body := [] }
  | some (.dir b es) =>
      let buffer := create_zip_file ser (.dir b es) full_path
      let safe0 := basename fp
      let safe_filename := if safe0 = "" then basename full_path else safe0
      { status := 200, message := "",
        headers :=
          [("Content-Type", "application/zip"),
           ("Content-Disposition",
             "attachment; filename*=UTF-8\x27\x27" ++ quoteStr safe_filename ++ ".zip"),
           ("Content-Length", toString buffer.pos)],
        body := buffer.data.drop buffer.pos }

/-- Model of `DownloadHandler.do_GET`: a path starting with `'/download_folder/'`
is answered by `send_folder_as_zip(urllib.parse.unquote(self.path[16:]))`;
`none` models delegation to `SimpleHTTPRequestHandler` for every other path. -/
def do_GET (ser : ZipEncoder) (fs : FSNode) (root path : String) : Option HTTPResponse :=
  if strStarts path "/download_folder/" then
    some (send_folder_as_zip ser fs root (unquote (strDrop path 16)))
  else none

/-- The directory the handler selects for packaging on a `GET` of `reqPath`:
the `full_path` computed inside `send_folder_as_zip` when invoked from `do_GET`. -/
def requestTarget (root reqPath : String) : String :=
  resolveFolder root (unquote (strDrop reqPath 16))

/-- Modelled from the spec: the directory the specification says is selected —
the serving root joined with the URL-decoded remainder of the path after the
prefix `'/download_folder/'` (17 characters), then normalized. -/
def specTarget (root reqPath : String) : String :=
  normpath (pyJoin root (unquote (strDrop reqPath 17)))

/-- The `<li>` rendered for a file at relative path `file_path`. -/
def fileLi (file_path : String) : String :=
  "<li><a class=\"file-link\" href=\"" ++ quoteStr file_path ++ "\">"
    ++ basename file_path ++ "</a></li>\n"

/-- The HTML element id `folder_{dir_path.replace(os.sep, '_')}`. -/
def folderIdOf (dir_path : String) : String := "folder_" ++ underscoreSep dir_path

/-- The `<li>` rendered for a subdirectory (whitespace condensed; attribute and
link text exactly as in the source). -/
def dirLi (dir_path inner : String) : String :=
  let fid := folderIdOf dir_path
  "<li><div class=\"folder\" onclick=\"toggleFolder(\x27" ++ fid ++ "\x27)\">"
    ++ "<span id=\"icon_" ++ fid ++ "\">[+]</span> " ++ basename dir_path
    ++ "<a href=\"/download_folder/" ++ quoteStr dir_path
    ++ "\" class=\"download-zip\" onclick=\"event.stopPropagation()\">下载ZIP</a></div>"
    ++ "<div id=\"" ++ fid ++ "\" class=\"folder-content\">" ++ inner ++ "</div></li>"

/-- Dict access `struct['dirs'][dir_path]` (keys produced by the scanner are
distinct, so first-match lookup is the dict). -/
def childStruct : List (String × DirStructure) → String → Option DirStructure
  | [], _ => none
  | (k, sub) :: rest, key => if k = key then some sub else childStruct rest key

/-- Model of the nested `render_structure(struct, parent_id)`: files first, in
`sorted(...)` order, then subdirectories in `sorted(struct['dirs'].keys())` order,
each looked up in the dict and rendered recursively.  The impossible `KeyError`
branch (a sorted key always comes from the dict) renders nothing. -/
def render_structure : DirStructure → String → String
  | .mk files dirs, _parentId =>
      let fhtml := String.join
        ((List.insertionSort (fun a b : String => a ≤ b) files).map fileLi)
      let keys := List.insertionSort (fun a b : String => a ≤ b) (dirs.map Prod.fst)
      let dhtml := String.join (keys.map fun k =>
        match hfind : childStruct dirs k with
        | some sub => dirLi k (render_structure sub (folderIdOf k))
        | none => "")
      "<ul>" ++ fhtml ++ dhtml ++ "</ul>"
termination_by s _ => sizeOf s
decreasing_by
  have key : ∀ (l : List (String × DirStructure)) (k : String) (sub : DirStructure),
      childStruct l k = some sub → sizeOf sub < sizeOf l := by
    intro l
    induction l with
    | nil => intro k sub h; simp [childStruct] at h
    | cons p rest ih =>
        intro k sub h
        by_cases hk : p.1 = k
        · have hsub : sub = p.2 := by
            obtain ⟨k1, s1⟩ := p
            simp [childStruct, hk] at h
            simp_all [childStruct]
          subst hsub
          obtain ⟨k1, s1⟩ := p
          simp only [Prod.mk.sizeOf_spec, List.cons.sizeOf_spec]
          omega
        · have h2 : childStruct rest k = some sub := by
            obtain ⟨k1, s1⟩ := p
            simp only [childStruct] at h
            simp only [hk] at h
            exact h
          have := ih k sub h2
          obtain ⟨k1, s1⟩ := p
          simp only [List.cons.sizeOf_spec]
          omega
  have hlt := key dirs k sub hfind
  simp only [DirStructure.mk.sizeOf_spec]
  omega

/-- The static page preamble (heading and current-directory line; the `<style>`
and `<script>` blocks of the source are presentation-only and abbreviated away). -/
def pageHead (root : String) : String :=
  "<html><head><title>文件下载</title><meta charset=\"utf-8\"></head><body>"
    ++ "<h2>文件下载服务器</h2><p>当前目录: " ++ root ++ "</p>"

/-- The static page epilogue. -/
def pageTail : String := "</body></html>"

/-- The empty-directory placeholder notice. -/
def emptyNotice : String := "<p class=\"empty\">当前目录为空</p>"

/-- Result of `list_directory`: status, `send_error` message (empty on success),
and the HTML body written on success. -/
structure PageResult : Type where
  status : Nat
  message : String
  body : String
deriving Repr

/-- Model of `DownloadHandler.list_directory(path)` for the directory node
`node` sitting at path `rel` relative to `DOWNLOAD_DIR` (`root` is the
`DOWNLOAD_DIR` string shown on the page).  The source wraps the scan in
`try/except OSError` answering 404, but `get_directory_structure` catches every
`OSError` itself and returns normally, so the scan step is the always-`ok`
computation made explicit here, and the 404 branch is dead code. -/
def list_directory (root : String) (node : FSNode) (rel : String) : PageResult :=
  match (Except.ok (get_directory_structure node rel) : Except Unit DirStructure) with
  | .error _ => { status := 404, message := "没有权限访问目录", body := "" }
  | .ok structure1 =>
      { status := 200, message := "",
        body := pageHead root ++
          (match structure1 with
           | .mk [] [] => emptyNotice
           | s => render_structure s "root") ++ pageTail }

mutual
/-- Every file path and every dict key of a `DirStructure` has, at every depth,
a final component that is not hidden and not a reserved filename. -/
def noExcluded : DirStructure → Bool
  | .mk files dirs =>
      files.all (fun f => !excludedName (basename f)) && noExcludedDirs dirs

/-- See `noExcluded`. -/
def noExcludedDirs : List (String × DirStructure) → Bool
  | [] => true
  | (k, sub) :: rest => !excludedName (basename k) && noExcluded sub && noExcludedDirs rest
end

/-- Concrete filesystem: the serving tree contains a hidden subdirectory with a
plain file inside. -/
def treeHidden : FSNode := .dir true [(".hidden", .dir true [("x.txt", .file [120])])]

/-- Concrete filesystem root: a directory `docs` containing `a.txt`. -/
def fsDocs : FSNode := .dir true [("docs", .dir true [("a.txt", .file [104])])]

/-- Concrete filesystem root: a subdirectory `d` and a plain file `f`. -/
def fsMixed : FSNode := .dir true [("d", .dir true []), ("f", .file [1])]

/-- Concrete serving tree with hidden, reserved, and ordinary entries. -/
def treeMixedNames : FSNode :=
  .dir true [("b.txt", .file [98]), (".hid", .file [1]), ("a.txt", .file [97]),
             ("simple_server.pid", .file [2]), ("sub", .dir true [("y.txt", .file [121])])]

/-- Concrete unreadable top-level directory (its scan raises `OSError`). -/
def treeUnreadable : FSNode := .dir false [("secret.txt", .file [115])]

/-- A serializer stand-in producing 22 bytes (the size of an empty ZIP archive). -/
def serStub : ZipEncoder := fun _ => List.replicate 22 0

/-- Listing-order variant 1 of a scanned level (as the filesystem might enumerate). -/
def levelA : DirStructure := .mk ["b.txt", "a.txt"] [("sub", .mk ["sub/y.txt"] [])]

/-- Listing-order variant 2 of the same level. -/
def levelB : DirStructure := .mk ["a.txt", "b.txt"] [("sub", .mk ["sub/y.txt"] [])]

/- ------------------------------------------------------------------ -/
/- Helper lemmas -/
/- ------------------------------------------------------------------ -/

theorem mk_data_eq (s : String) : String.mk s.data = s := by
  cases s
  rfl

theorem splitSlash_ne_nil (l : List Char) : splitSlash l ≠ [] := by
  cases l with
  | nil => simp [splitSlash]
  | cons c rest =>
      simp only [splitSlash]
      by_cases h : c = '/'
      · simp [h]
      · simp only [h, if_false]
        cases splitSlash rest <;> simp

theorem splitSlash_no_slash (l : List Char) (h : ∀ c ∈ l, c ≠ '/') :
    splitSlash l = [String.mk l] := by
  induction l with
  | nil => rfl
  | cons c rest ih =>
      have hc : c ≠ '/' := h c (List.mem_cons_self c rest)
      have hrest : ∀ x ∈ rest, x ≠ '/' := fun x hx => h x (List.mem_cons_of_mem c hx)
      simp only [splitSlash, hc, if_false, ih hrest]

theorem getLastD_indep (l : List String) (a b : String) (h : l ≠ []) :
    l.getLastD a = l.getLastD b := by
  cases l with
  | nil => exact absurd rfl h
  | cons x xs => simp [List.getLastD]

theorem splitSlash_length_two (l₁ l₂ : List Char) :
    2 ≤ (splitSlash (l₁ ++ '/' :: l₂)).length := by
  induction l₁ with
  | nil =>
      rw [List.nil_append]
      show 2 ≤ (splitSlash ('/' :: l₂)).length
      simp only [splitSlash, if_true]
      rw [List.length_cons]
      have h := splitSlash_ne_nil l₂
      have : 0 < (splitSlash l₂).length := List.length_pos.mpr h
      omega
  | cons c cs ih =>
      rw [List.cons_append]
      simp only [splitSlash]
      by_cases hc : c = '/'
      · rw [if_pos hc, List.length_cons]
        have h := splitSlash_ne_nil (cs ++ '/' :: l₂)
        have : 0 < (splitSlash (cs ++ '/' :: l₂)).length := List.length_pos.mpr h
        omega
      · rw [if_neg hc]
        rcases hsp : splitSlash (cs ++ '/' :: l₂) with _ | ⟨s, ss⟩
        · exact absurd hsp (splitSlash_ne_nil _)
        · rw [hsp] at ih
          simp only [List.length_cons] at ih ⊢
          omega

theorem splitSlash_last_append (l₁ l₂ : List Char) :
    (splitSlash (l₁ ++ '/' :: l₂)).getLastD "" = (splitSlash l₂).getLastD "" := by
  induction l₁ with
  | nil =>
      rw [List.nil_append]
      show (splitSlash ('/' :: l₂)).getLastD "" = (splitSlash l₂).getLastD ""
      simp only [splitSlash, if_true]
      rw [List.getLastD_cons]
  | cons c cs ih =>
      rw [List.cons_append]
      simp only [splitSlash]
      by_cases hc : c = '/'
      · rw [if_pos hc, List.getLastD_cons, ← ih]
      · rw [if_neg hc]
        rcases hsp : splitSlash (cs ++ '/' :: l₂) with _ | ⟨s, ss⟩
        · exact absurd hsp (splitSlash_ne_nil _)
        · have hlen := splitSlash_length_two cs l₂
          rw [hsp] at hlen
          have hne : ss ≠ [] := by
            intro hempty
            rw [hempty] at hlen
            simp at hlen
          rw [hsp] at ih
          calc (String.mk (c :: s.data) :: ss).getLastD ""
              = ss.getLastD (String.mk (c :: s.data)) := List.getLastD_cons _ _ _
            _ = ss.getLastD s := getLastD_indep ss _ _ hne
            _ = (s :: ss).getLastD "" := (List.getLastD_cons _ _ _).symm
            _ = (splitSlash l₂).getLastD "" := ih

theorem basename_no_slash (n : String) (h : ∀ c ∈ n.data, c ≠ '/') : basename n = n := by
  unfold basename
  rw [splitSlash_no_slash n.data h]
  rw [List.getLastD_cons, List.getLastD_nil]

theorem basename_joinRel (rel n : String) (h : ∀ c ∈ n.data, c ≠ '/') :
    basename (joinRel rel n) = n := by
  unfold joinRel
  by_cases hrel : rel = ""
  · rw [if_pos hrel]
    exact basename_no_slash n h
  · rw [if_neg hrel]
    unfold basename
    have hdata : (rel ++ "/" ++ n).data = rel.data ++ '/' :: n.data := by
      simp [String.data_append]
    rw [hdata, splitSlash_last_append, splitSlash_no_slash n.data h]
    rw [List.getLastD_cons, List.getLastD_nil]

theorem no_slash_of_contains_false {n : String} (h : n.data.contains '/' = false) :
    ∀ c ∈ n.data, c ≠ '/' := by
  intro c hc he
  subst he
  have h2 : List.elem '/' n.data = true := List.elem_iff.mpr hc
  have h3 : n.data.contains '/' = true := h2
  rw [h3] at h
  cases h

theorem bool_false_of_not_true {b : Bool} (h : ¬b = true) : b = false := by
  cases b
  · rfl
  · exact absurd rfl h

theorem validEntries_parts {n : String} {c : FSNode} {rest : List (String × FSNode)}
    (h : validEntries ((n, c) :: rest) = true) :
    (∀ ch ∈ n.data, ch ≠ '/') ∧ validNames c = true ∧ validEntries rest = true := by
  simp only [validEntries, Bool.and_eq_true] at h
  obtain ⟨⟨⟨_, h2⟩, h3⟩, h4⟩ := h
  refine ⟨?_, h3, h4⟩
  apply no_slash_of_contains_false
  revert h2
  cases hc : n.data.contains '/' <;> simp

theorem noExcluded_consFile_iff (x : String) (s : DirStructure) :
    noExcluded (.mk (x :: s.files) s.dirs) = true ↔
      (excludedName (basename x) = false ∧ noExcluded s = true) := by
  cases s with
  | mk fs ds =>
      simp only [DirStructure.files, DirStructure.dirs, noExcluded, List.all_cons,
        Bool.and_eq_true, Bool.not_eq_true', and_assoc]

theorem noExcluded_consDir_iff (k : String) (sub : DirStructure) (s : DirStructure) :
    noExcluded (.mk s.files ((k, sub) :: s.dirs)) = true ↔
      (excludedName (basename k) = false ∧ noExcluded sub = true ∧ noExcluded s = true) := by
  cases s with
  | mk fs ds =>
      simp only [DirStructure.files, DirStructure.dirs, noExcluded, noExcludedDirs,
        Bool.and_eq_true, Bool.not_eq_true', and_assoc]
      constructor
      · rintro ⟨h1, h2, h3, h4⟩
        exact ⟨h2, h3, h1, h4⟩
      · rintro ⟨h2, h3, h1, h4⟩
        exact ⟨h1, h2, h3, h4⟩

theorem scanItems_bounded (k : Nat)
    (ih : ∀ m, m < k → ∀ node, sizeOf node ≤ m → ∀ rel, validNames node = true →
      noExcluded (get_directory_structure node rel) = true)
    (l : List (String × FSNode)) (rel : String) :
    (∀ p ∈ l, sizeOf p.2 < k) → validEntries l = true →
      noExcluded (scanItems l rel) = true := by
  induction l with
  | nil =>
      intro _ _
      simp [scanItems, noExcluded, noExcludedDirs]
  | cons p rest ihl =>
      intro hes hv
      obtain ⟨name, child⟩ := p
      obtain ⟨hnsl, hvc, hvrest⟩ := validEntries_parts hv
      have hr := ihl (fun q hq => hes q (List.mem_cons_of_mem _ hq)) hvrest
      have hbn := basename_joinRel rel name hnsl
      have hchild : sizeOf child < k := by
        have := hes (name, child) (List.mem_cons_self _ _)
        simpa using this
      cases child with
      | file data =>
          simp only [scanItems]
          by_cases he : excludedName name = true
          · rw [if_pos he]
            exact hr
          · rw [if_neg he]
            rw [noExcluded_consFile_iff]
            exact ⟨by rw [hbn]; exact bool_false_of_not_true he, hr⟩
      | dir b es =>
          simp only [scanItems]
          by_cases he : excludedName name = true
          · rw [if_pos he]
            exact hr
          · rw [if_neg he]
            rw [noExcluded_consDir_iff]
            refine ⟨by rw [hbn]; exact bool_false_of_not_true he, ?_, hr⟩
            exact ih (sizeOf (FSNode.dir b es)) hchild (FSNode.dir b es) (le_refl _)
              (joinRel rel name) hvc

theorem scan_bounded :
    ∀ (k : Nat) (node : FSNode), sizeOf node ≤ k → ∀ rel, validNames node = true →
      noExcluded (get_directory_structure node rel) = true := by
  intro k
  induction k using Nat.strong_induction_on with
  | _ k ih =>
      intro node hk rel hv
      cases node with
      | file data => simp [get_directory_structure, noExcluded, noExcludedDirs]
      | dir readable entries =>
          cases readable with
          | false => simp [get_directory_structure, noExcluded, noExcludedDirs]
          | true =>
              simp only [validNames] at hv
              simp only [get_directory_structure]
              refine scanItems_bounded k ih entries rel ?_ hv
              intro p hp
              have h1 := List.sizeOf_lt_of_mem hp
              have h2 : sizeOf (FSNode.dir true entries) ≤ k := hk
              obtain ⟨a, c⟩ := p
              show sizeOf c < k
              simp only [Prod.mk.sizeOf_spec] at h1
              simp only [FSNode.dir.sizeOf_spec, Bool.sizeOf_eq_one] at h2
              omega

theorem scan_noExcluded (node : FSNode) (rel : String) (h : validNames node = true) :
    noExcluded (get_directory_structure node rel) = true :=
  scan_bounded (sizeOf node) node (le_refl _) rel h

theorem zipFilesHere_basenames (l : List (String × FSNode)) (rel : String) :
    validEntries l = true →
      (zipFilesHere l rel).all (fun e => !excludedName (basename e.1)) = true := by
  induction l with
  | nil =>
      intro _
      simp [zipFilesHere]
  | cons p rest ihl =>
      intro hv
      obtain ⟨name, child⟩ := p
      obtain ⟨hnsl, hvc, hvrest⟩ := validEntries_parts hv
      have hr := ihl hvrest
      cases child with
      | file data =>
          simp only [zipFilesHere, List.all_append, Bool.and_eq_true]
          refine ⟨?_, hr⟩
          by_cases he : excludedName name = true
          · rw [if_pos he]
            rfl
          · rw [if_neg he]
            simp only [List.all_cons, List.all_nil, Bool.and_true]
            rw [basename_joinRel rel name hnsl, bool_false_of_not_true he]
            rfl
      | dir b es =>
          simp only [zipFilesHere]
          exact hr

theorem zipWalk_bounded (k : Nat)
    (ih : ∀ m, m < k → ∀ node, sizeOf node ≤ m → ∀ rel, validNames node = true →
      (zipEntries node rel).all (fun e => !excludedName (basename e.1)) = true)
    (l : List (String × FSNode)) (rel : String) :
    (∀ p ∈ l, sizeOf p.2 < k) → validEntries l = true →
      (zipWalkSubdirs l rel).all (fun e => !excludedName (basename e.1)) = true := by
  induction l with
  | nil =>
      intro _ _
      simp [zipWalkSubdirs]
  | cons p rest ihl =>
      intro hes hv
      obtain ⟨name, child⟩ := p
      obtain ⟨hnsl, hvc, hvrest⟩ := validEntries_parts hv
      have hr := ihl (fun q hq => hes q (List.mem_cons_of_mem _ hq)) hvrest
      have hchild : sizeOf child < k := by
        have := hes (name, child) (List.mem_cons_self _ _)
        simpa using this
      cases child with
      | file data =>
          simp only [zipWalkSubdirs]
          exact hr
      | dir b es =>
          simp only [zipWalkSubdirs, List.all_append, Bool.and_eq_true]
          refine ⟨?_, hr⟩
          exact ih (sizeOf (FSNode.dir b es)) hchild (FSNode.dir b es) (le_refl _)
            (joinRel rel name) hvc

theorem zipEntries_bounded :
    ∀ (k : Nat) (node : FSNode), sizeOf node ≤ k → ∀ rel, validNames node = true →
      (zipEntries node rel).all (fun e => !excludedName (basename e.1)) = true := by
  intro k
  induction k using Nat.strong_induction_on with
  | _ k ih =>
      intro node hk rel hv
      cases node with
      | file data => simp [zipEntries]
      | dir readable entries =>
          cases readable with
          | false => simp [zipEntries]
          | true =>
              simp only [validNames] at hv
              simp only [zipEntries, List.all_append, Bool.and_eq_true]
              refine ⟨zipFilesHere_basenames entries rel hv, ?_⟩
              refine zipWalk_bounded k ih entries rel ?_ hv
              intro p hp
              have h1 := List.sizeOf_lt_of_mem hp
              have h2 : sizeOf (FSNode.dir true entries) ≤ k := hk
              obtain ⟨a, c⟩ := p
              show sizeOf c < k
              simp only [Prod.mk.sizeOf_spec] at h1
              simp only [FSNode.dir.sizeOf_spec, Bool.sizeOf_eq_one] at h2
              omega

theorem zipEntries_basenames (node : FSNode) (rel : String) (h : validNames node = true) :
    (zipEntries node rel).all (fun e => !excludedName (basename e.1)) = true :=
  zipEntries_bounded (sizeOf node) node (le_refl _) rel h

theorem sortStr_eq_of_perm {l₁ l₂ : List String} (h : l₁.Perm l₂) :
    List.insertionSort (fun a b : String => a ≤ b) l₁
      = List.insertionSort (fun a b : String => a ≤ b) l₂ :=
  List.eq_of_perm_of_sorted
    ((List.perm_insertionSort _ _).trans (h.trans (List.perm_insertionSort _ _).symm))
    (List.sorted_insertionSort _ _) (List.sorted_insertionSort _ _)

theorem childStruct_perm :
    ∀ {l₁ l₂ : List (String × DirStructure)}, l₁.Perm l₂ →
      (l₁.map Prod.fst).Nodup → ∀ k, childStruct l₁ k = childStruct l₂ k := by
  intro l₁ l₂ h
  induction h with
  | nil =>
      intro _ k
      rfl
  | cons x h ih =>
      intro hnd k
      obtain ⟨a, b⟩ := x
      simp only [childStruct]
      by_cases hk : a = k
      · rw [if_pos hk, if_pos hk]
      · rw [if_neg hk, if_neg hk]
        refine ih ?_ k
        simp only [List.map_cons, List.nodup_cons] at hnd
        exact hnd.2
  | swap x y l =>
      intro hnd k
      obtain ⟨a, b⟩ := x
      obtain ⟨c, d⟩ := y
      simp only [childStruct]
      simp only [List.map_cons, List.nodup_cons, List.mem_cons] at hnd
      by_cases h1 : c = k
      · by_cases h2 : a = k
        · exfalso
          exact hnd.1 (Or.inl (by rw [h1, h2]))
        · rw [if_pos h1, if_neg h2, if_pos h1]
      · by_cases h2 : a = k
        · rw [if_neg h1, if_pos h2, if_pos h2]
        · rw [if_neg h1, if_neg h2, if_neg h2, if_neg h1]
  | trans h₁ h₂ ih₁ ih₂ =>
      intro hnd k
      have hnd₂ := ((h₁.map Prod.fst).nodup_iff).mp hnd
      rw [ih₁ hnd k, ih₂ hnd₂ k]

theorem toStringZero : toString (0 : Nat) = "0" := rfl

theorem render_structure_eq (files : List String) (dirs : List (String × DirStructure))
    (pid : String) :
    render_structure (.mk files dirs) pid
      = "<ul>"
        ++ String.join ((List.insertionSort (fun a b : String => a ≤ b) files).map fileLi)
        ++ String.join ((List.insertionSort (fun a b : String => a ≤ b)
              (dirs.map Prod.fst)).map
            (fun k =>
              match childStruct dirs k with
              | some sub => dirLi k (render_structure sub (folderIdOf k))
              | none => ""))
        ++ "</ul>" := by
  simp only [render_structure]
  congr 1
  congr 1
  congr 1
  refine List.map_congr_left ?_
  intro k _
  cases hck : childStruct dirs k <;> simp

/- ------------------------------------------------------------------ -/
/- Claim theorems -/
/- ------------------------------------------------------------------ -/

/-- Claim C1 (code bug, evaluated at the failing input): the handler slices
`self.path[16:]`, which keeps the trailing slash of the 17-character route
`'/download_folder/'`; `os.path.join` then discards the serving root before the
resulting absolute path.  For the empty remainder the selected directory is the
filesystem root `/`, not the serving root, and for remainder `docs` it is
`/docs`, not `<root>/docs` — while the spec-worded target (`specTarget`) is the
serving root resp. `<root>/docs`. -/
theorem c1_slice_discards_root :
    requestTarget "/srv/files" "/download_folder/" = "/" ∧
    specTarget "/srv/files" "/download_folder/" = "/srv/files" ∧
    requestTarget "/srv/files" "/download_folder/"
      ≠ specTarget "/srv/files" "/download_folder/" ∧
    requestTarget "/srv/files" "/download_folder/docs" = "/docs" ∧
    specTarget "/srv/files" "/download_folder/docs" = "/srv/files/docs" ∧
    do_GET serStub fsDocs "/srv/files" "/download_folder/docs"
      = some (send_folder_as_zip serStub fsDocs "/srv/files" "/docs") := by
  refine ⟨rfl, by decide, by decide, rfl, by decide, rfl⟩

/-- Claim C2 (code bug, supporting theorem): on the successful branch the
response has status 200, content type `application/zip`, and the disposition
names `<basename>.zip`, but the `Content-Length` header is the string `"0"`
(`tell()` is called after `seek(0)`) while the full serialized archive bytes
are written to the socket. -/
theorem c2_content_length_is_zero (ser : ZipEncoder) (fs : FSNode)
    (root folder_path : String) (b : Bool) (es : List (String × FSNode))
    (h : fsLookup (pathComponents (resolveFolder root folder_path)) fs = some (.dir b es)) :
    (send_folder_as_zip ser fs root folder_path).status = 200 ∧
    headerValue (send_folder_as_zip ser fs root folder_path).headers "Content-Type"
      = some "application/zip" ∧
    headerValue (send_folder_as_zip ser fs root folder_path).headers "Content-Length"
      = some "0" ∧
    (send_folder_as_zip ser fs root folder_path).body = ser (zipEntries (.dir b es) "") := by
  simp [send_folder_as_zip, h, create_zip_file, headerValue, toStringZero]

/-- Witness for C2's theorem at a concrete filesystem and serializer: the header
says `0` bytes while 22 bytes are written. -/
theorem c2_content_length_is_zero_witness :
    headerValue (send_folder_as_zip serStub fsDocs "/srv/files" "/docs").headers
      "Content-Length" = some "0" ∧
    (send_folder_as_zip serStub fsDocs "/srv/files" "/docs").body = List.replicate 22 0 :=
  ⟨(c2_content_length_is_zero serStub fsDocs "/srv/files" "/docs" true
      [("a.txt", .file [104])] rfl).2.2.1,
   (c2_content_length_is_zero serStub fsDocs "/srv/files" "/docs" true
      [("a.txt", .file [104])] rfl).2.2.2⟩

/-- Claim C3 (confirmed): the remainder after the route is URL-decoded once in
`do_GET` and once more in `send_folder_as_zip`, so the path handed to resolution
is the double decode; a doubly percent-encoded `%252e%252e` resolves exactly as
the literal `..` text would. -/
theorem c3_double_url_decode (root : String) :
    requestTarget root "/download_folder/%252e%252e" = resolveFolder root "/%2e%2e" ∧
    unquote "%252e%252e" = "%2e%2e" ∧
    unquote (unquote "%252e%252e") = ".." ∧
    requestTarget root "/download_folder/%252e%252e" = normpath (pyJoin root "/..") ∧
    requestTarget root "/download_folder/%252e%252e"
      = requestTarget root "/download_folder/.." :=
  ⟨rfl, rfl, rfl, rfl, rfl⟩

/-- Claim C4 (counterexample): a top-level directory whose scan raises an
`OSError` is answered with status 200 and the empty-directory page, not with
404 — `get_directory_structure` swallows the error before `list_directory`'s
`except OSError` clause can see it. -/
theorem c4_counterexample_top_error :
    (list_directory "/srv/files" treeUnreadable "").status = 200 ∧
    ¬(list_directory "/srv/files" treeUnreadable "").status = 404 ∧
    (list_directory "/srv/files" treeUnreadable "").body
      = pageHead "/srv/files" ++ emptyNotice ++ pageTail := by
  refine ⟨rfl, by decide, rfl⟩

/-- Claim C4 (amended): the scan step never raises, so every listing request is
answered with status 200 (the 404 access-denied branch is dead code), and a
top-level `OSError` yields the empty tree, hence the empty-directory page. -/
theorem c4_listing_never_404 (root : String) (node : FSNode) (rel : String) :
    (list_directory root node rel).status = 200 ∧
    (list_directory root node rel).message = "" ∧
    ∀ (entries : List (String × FSNode)) (rel2 : String),
      get_directory_structure (.dir false entries) rel2 = .mk [] [] :=
  ⟨rfl, rfl, fun _ _ => rfl⟩

/-- Claim C5 (counterexample): `create_zip_file` filters only *file* names, so a
file inside a hidden directory is archived under an entry whose first path
component starts with `'.'`. -/
theorem c5_counterexample_hidden_dir :
    (zipEntries treeHidden "").map Prod.fst = [".hidden/x.txt"] ∧
    splitSlash (String.data ".hidden/x.txt") = [".hidden", "x.txt"] ∧
    excludedName ".hidden" = true ∧
    ¬(∀ e ∈ zipEntries treeHidden "", ∀ c ∈ splitSlash (String.data e.1),
        excludedName c = false) := by
  refine ⟨rfl, by decide, by decide, by decide⟩

/-- Claim C5 (amended): every archive entry's *final* component (the file name)
is neither hidden nor a reserved filename; components naming enclosing
directories are not filtered. -/
theorem c5_zip_filters_file_names (node : FSNode) (rel : String)
    (h : validNames node = true) :
    ∀ e ∈ zipEntries node rel, excludedName (basename e.1) = false := by
  intro e he
  have hall := zipEntries_basenames node rel h
  rw [List.all_eq_true] at hall
  have h2 := hall e he
  simp only [Bool.not_eq_true'] at h2
  exact h2

/-- Witness for C5's amended theorem on a concrete tree. -/
theorem c5_zip_filters_file_names_witness :
    validNames treeMixedNames = true ∧ excludedName (basename "a.txt") = false :=
  ⟨by decide,
   c5_zip_filters_file_names treeMixedNames "" (by decide) ("a.txt", [97]) (by decide)⟩

/-- Claim C6 (confirmed): the scanner's output contains, at every depth, no file
entry and no subdirectory key whose (final-component) name starts with `'.'` or
equals the marker or log filename. -/
theorem c6_scanner_excludes_at_depth (node : FSNode) (rel : String)
    (h : validNames node = true) :
    noExcluded (get_directory_structure node rel) = true :=
  scan_noExcluded node rel h

/-- Witness for C6 on a concrete tree containing hidden and reserved names. -/
theorem c6_scanner_excludes_at_depth_witness :
    validNames treeMixedNames = true ∧
    noExcluded (get_directory_structure treeMixedNames "") = true :=
  ⟨by decide, c6_scanner_excludes_at_depth treeMixedNames "" (by decide)⟩

/-- Claim C7 (confirmed): packaging a directory holding exactly `x.txt` and
`sub/y.txt` writes exactly the two entries `x.txt` and `sub/y.txt`
(forward-slash convention), each carrying the file's bytes unchanged, for any
file contents — the round-trip law at the entry level. -/
theorem c7_zip_roundtrip (b1 b2 : List Nat) :
    zipEntries (.dir true [("x.txt", .file b1), ("sub", .dir true [("y.txt", .file b2)])]) ""
      = [("x.txt", b1), ("sub/y.txt", b2)] ∧
    ∀ ser : ZipEncoder,
      (create_zip_file ser
        (.dir true [("x.txt", .file b1), ("sub", .dir true [("y.txt", .file b2)])])
        "/srv/files/d").data
        = ser [("x.txt", b1), ("sub/y.txt", b2)] :=
  ⟨rfl, fun _ => rfl⟩

/-- Claim C8 (confirmed): resolution drives the status — no resolved node gives
404 `Folder not found`, a plain file gives 400 `Not a directory`, and only a
directory proceeds to packaging (status 200). -/
theorem c8_resolution_statuses (ser : ZipEncoder) (fs : FSNode)
    (root folder_path : String) :
    (fsLookup (pathComponents (resolveFolder root folder_path)) fs = none →
      (send_folder_as_zip ser fs root folder_path).status = 404 ∧
      (send_folder_as_zip ser fs root folder_path).message = "Folder not found") ∧
    (∀ data, fsLookup (pathComponents (resolveFolder root folder_path)) fs
        = some (.file data) →
      (send_folder_as_zip ser fs root folder_path).status = 400 ∧
      (send_folder_as_zip ser fs root folder_path).message = "Not a directory") ∧
    (∀ b es, fsLookup (pathComponents (resolveFolder root folder_path)) fs
        = some (.dir b es) →
      (send_folder_as_zip ser fs root folder_path).status = 200) := by
  refine ⟨?_, ?_, ?_⟩
  · intro h
    simp [send_folder_as_zip, h]
  · intro data h
    simp [send_folder_as_zip, h]
  · intro b es h
    simp [send_folder_as_zip, h]

/-- Witness for C8 on a concrete filesystem with all three cases. -/
theorem c8_resolution_statuses_witness :
    (send_folder_as_zip serStub fsMixed "/srv" "/d").status = 200 ∧
    (send_folder_as_zip serStub fsMixed "/srv" "/f").status = 400 ∧
    (send_folder_as_zip serStub fsMixed "/srv" "/nope").status = 404 :=
  ⟨(c8_resolution_statuses serStub fsMixed "/srv" "/d").2.2 true [] rfl,
   ((c8_resolution_statuses serStub fsMixed "/srv" "/f").2.1 [1] rfl).1,
   ((c8_resolution_statuses serStub fsMixed "/srv" "/nope").1 rfl).1⟩

/-- Claim C9 (confirmed): a directory whose listing raises an `OSError` scans to
the empty tree, and replacing an unreadable subdirectory by an empty readable
one does not change the enclosing scan — one unreadable subdirectory never
aborts it. -/
theorem c9_unreadable_degrades_empty :
    (∀ (entries : List (String × FSNode)) (rel : String),
      get_directory_structure (.dir false entries) rel = .mk [] []) ∧
    (∀ (front back : List (String × FSNode)) (name : String)
        (sub : List (String × FSNode)) (rel : String),
      scanItems (front ++ (name, FSNode.dir false sub) :: back) rel
        = scanItems (front ++ (name, FSNode.dir true []) :: back) rel) := by
  refine ⟨fun _ _ => rfl, ?_⟩
  intro front back name sub rel
  induction front with
  | nil => rfl
  | cons p rest ih =>
      obtain ⟨n, ch⟩ := p
      cases ch with
      | file data =>
          simp only [List.cons_append, scanItems, List.append_eq]
          rw [ih]
      | dir b es =>
          simp only [List.cons_append, scanItems, List.append_eq]
          rw [ih]

/-- Claim C10 (confirmed): at each rendered level, the output is the file items
(sorted lexicographically) followed by the subdirectory items (keys sorted
lexicographically), and the rendering is invariant under the filesystem's
enumeration order (permutations of the files list and of the dirs dict). -/
theorem c10_render_sorted_files_first (s₁ s₂ : DirStructure) (pid : String)
    (hf : s₁.files.Perm s₂.files) (hd : s₁.dirs.Perm s₂.dirs)
    (hnd : (s₁.dirs.map Prod.fst).Nodup) :
    render_structure s₁ pid = render_structure s₂ pid ∧
    (List.insertionSort (fun a b : String => a ≤ b) s₁.files).Sorted (· ≤ ·) ∧
    (List.insertionSort (fun a b : String => a ≤ b) (s₁.dirs.map Prod.fst)).Sorted (· ≤ ·) ∧
    render_structure s₁ pid
      = "<ul>"
        ++ String.join ((List.insertionSort (fun a b : String => a ≤ b) s₁.files).map fileLi)
        ++ String.join ((List.insertionSort (fun a b : String => a ≤ b)
              (s₁.dirs.map Prod.fst)).map
            (fun k =>
              match childStruct s₁.dirs k with
              | some sub => dirLi k (render_structure sub (folderIdOf k))
              | none => ""))
        ++ "</ul>" := by
  obtain ⟨f₁, d₁⟩ := s₁
  obtain ⟨f₂, d₂⟩ := s₂
  simp only [DirStructure.files, DirStructure.dirs] at hf hd hnd ⊢
  refine ⟨?_, List.sorted_insertionSort _ _, List.sorted_insertionSort _ _,
    render_structure_eq f₁ d₁ pid⟩
  have hs := childStruct_perm hd hnd
  rw [render_structure_eq f₁ d₁ pid, render_structure_eq f₂ d₂ pid]
  rw [sortStr_eq_of_perm hf, sortStr_eq_of_perm (hd.map Prod.fst)]
  simp only [hs]

/-- Witness for C10: rendering is identical for two enumeration orders of the
same level. -/
theorem c10_render_sorted_files_first_witness :
    render_structure levelA "root" = render_structure levelB "root" :=
  (c10_render_sorted_files_first levelA levelB "root" (by decide) (List.Perm.refl _)
    (by decide)).1

end SimpleServer